import Mathlib

/-!
# HireLens — Step Playback Engine, Render Projector and Interaction Overlay

Shallow embedding of the playback cursor, pinch-gesture hysteresis, swap
reconciliation, linear/tree layout and the analysis-result processing of the
HireLens repository, with theorems settling the specification claims.

Sources embedded (file, symbol):
* `algovision-pro/App.tsx` — prev/next button handlers, auto-play interval,
  `handleRun`;
* `unnamed/part_004` — `hologramNextStep`, `hologramPrevStep`, the hologram
  auto-play interval, the timeline seek slider, `handleHologramAnalyze`,
  `renderNode` (safeX/safeY), the array branch of `renderStructure`, and
  `calculatePositions` (tree layout);
* `unnamed/part_002` — `getBasePositions`, pinch hysteresis, pinch-release
  swap handling;
* `algovision-pro/components/Visualizer.tsx` — array `startX`, pinch
  hysteresis constants;
* `algovision-pro/services/geminiService.ts` and `unnamed/part_005` —
  `simulateCode` response processing.

Machine numbers are modelled as `ℚ` (all constants in the embedded code are
decimal literals, and the layout arithmetic is exact on them); the JavaScript
non-finite values `NaN`/`Infinity` are modelled where relevant by the
dedicated type `JSNum`.
-/

namespace HireLens

/-! ## Playback cursor operations

`App.tsx` keeps the cursor in a React state `currentStepIdx : number` and the
sequence in `steps`. The button handlers and the auto-play interval are:

* prev button: `setCurrentStepIdx(Math.max(0, currentStepIdx - 1))`
* next button: `setCurrentStepIdx(Math.min(steps.length - 1, currentStepIdx + 1))`
* interval tick: `prev >= steps.length - 1 ? prev : prev + 1` (also stops play)

`unnamed/part_004` (hologram engine) uses:

* `hologramNextStep`: no-op when `algoMetadata` is null, else
  `prev < steps.length - 1 ? prev + 1 : prev`
* `hologramPrevStep`: `prev > 0 ? prev - 1 : 0`
* interval tick: `prev < steps.length - 1 ? prev + 1 : prev` (also stops play)
* seek slider: `<input type="range" min={0} max={totalSteps ? totalSteps - 1 : 0}>`
  feeding `setCurrentStepIndex`; the DOM clamps the delivered value into
  `[min, max]`.

The cursor is a JS number holding integers here, so it is modelled by `ℤ`
(the length by `ℕ`). -/

/-- `App.tsx` next button: `Math.min(steps.length - 1, currentStepIdx + 1)`. -/
def appNextIdx (L : ℕ) (i : ℤ) : ℤ := min ((L : ℤ) - 1) (i + 1)

/-- `App.tsx` prev button: `Math.max(0, currentStepIdx - 1)`. -/
def appPrevIdx (i : ℤ) : ℤ := max 0 (i - 1)

/-- `App.tsx` auto-play tick: `prev >= steps.length - 1 ? prev : prev + 1`. -/
def appTickIdx (L : ℕ) (i : ℤ) : ℤ := if i ≥ (L : ℤ) - 1 then i else i + 1

/-- `unnamed/part_004` `hologramNextStep` (with metadata loaded):
`prev < algoMetadata.steps.length - 1 ? prev + 1 : prev`. -/
def holoNextIdx (L : ℕ) (i : ℤ) : ℤ := if i < (L : ℤ) - 1 then i + 1 else i

/-- `unnamed/part_004` `hologramPrevStep`: `prev > 0 ? prev - 1 : 0`. -/
def holoPrevIdx (i : ℤ) : ℤ := if i > 0 then i - 1 else 0

/-- `unnamed/part_004` timeline slider: the range input clamps its value into
`[0, totalSteps ? totalSteps - 1 : 0]` before `onSeek = setCurrentStepIndex`
receives it. -/
def holoSeekIdx (L : ℕ) (v : ℤ) : ℤ :=
  max 0 (min (if L > 0 then (L : ℤ) - 1 else 0) v)

/-- One user- or clock-driven cursor operation, over both implementations. -/
inductive CursorOp where
  | anext : CursorOp
  | aprev : CursorOp
  | atick : CursorOp
  | hnext : CursorOp
  | hprev : CursorOp
  | htick : CursorOp
  | hseek (v : ℤ) : CursorOp
deriving DecidableEq

/-- Apply one cursor operation to cursor `i` with sequence length `L`.
The hologram tick (line 1540 of `unnamed/part_004`) advances exactly like
`hologramNextStep`. -/
def applyOp (L : ℕ) (i : ℤ) : CursorOp → ℤ
  | .anext => appNextIdx L i
  | .aprev => appPrevIdx i
  | .atick => appTickIdx L i
  | .hnext => holoNextIdx L i
  | .hprev => holoPrevIdx i
  | .htick => holoNextIdx L i
  | .hseek v => holoSeekIdx L v

/-- Run a finite sequence of cursor operations. -/
def runOps (L : ℕ) (i : ℤ) (ops : List CursorOp) : ℤ := ops.foldl (applyOp L) i

/-! ## Pinch hysteresis

`unnamed/part_002` lines 209–212:
`const pinchOn = 0.06; const pinchOff = 0.09;`
`const isPinching = isPinchingRef.current ? dist < pinchOff : dist < pinchOn;`

`algovision-pro/components/Visualizer.tsx` lines 423–427 use the same update
with `pinchOn = 0.055`, `pinchOff = 0.075`. -/

/-- One frame of the pinch state machine with thresholds `on`/`off`. -/
def pinchStep (tOn tOff : ℚ) (p : Bool) (d : ℚ) : Bool :=
  if p then decide (d < tOff) else decide (d < tOn)

/-- `unnamed/part_002` engage threshold `pinchOn = 0.06`. -/
def pinchOnA : ℚ := 6 / 100

/-- `unnamed/part_002` release threshold `pinchOff = 0.09`. -/
def pinchOffA : ℚ := 9 / 100

/-- `Visualizer.tsx` engage threshold `pinchOn = 0.055`. -/
def pinchOnB : ℚ := 55 / 1000

/-- `Visualizer.tsx` release threshold `pinchOff = 0.075`. -/
def pinchOffB : ℚ := 75 / 1000

/-- Run the pinch state machine over a sequence of frame distances. -/
def runPinch (tOn tOff : ℚ) (p : Bool) (ds : List ℚ) : Bool :=
  ds.foldl (pinchStep tOn tOff) p

/-! ## Interaction Overlay: pinch-release swap (`unnamed/part_002`, 274–324)

State: `elementPositions` (a JS object `id ↦ {x, y}`, iterated in insertion
order, modelled as an association list with distinct keys), `grabbedIdRef`,
`grabbedStartPosRef`. Block constants: `blockW = 90`, `gap = 35`.

On release the code scans `Object.entries(elementPositions)`, skipping the
grabbed id, and keeps the entry minimising the centre distance
`distBetween = sqrt((gx-cx)^2 + (gy-cy)^2)` subject to
`distBetween < (blockW + gap) * 1.2 && distBetween < minDist`.
Both centres are the stored position plus `(blockW/2, blockH/2)`, so the
centre distance equals the distance of the stored positions themselves.
`sqrt` is strictly monotone on nonnegative reals, so both comparisons are
carried out here on squared distances (`150^2 = 22500`). -/

/-- Squared Euclidean distance between two stored positions. -/
def dist2 (a b : ℚ × ℚ) : ℚ := (a.1 - b.1) ^ 2 + (a.2 - b.2) ^ 2

/-- Squared swap-proximity threshold: `((blockW + gap) * 1.2)^2 = 150^2`. -/
def swapThreshold2 : ℚ := 22500

/-- `elementPositions[id]` (JS objects keep one entry per key, first and
only match wins). -/
def lookupPos : List (ℕ × ℚ × ℚ) → ℕ → Option (ℚ × ℚ)
  | [], _ => none
  | e :: rest, id => if e.1 == id then some e.2 else lookupPos rest id

/-- Object-spread update `{...prev, [id]: v}` for an existing key: the value
stored under `id` is replaced in place, all other entries are untouched. -/
def setPos : List (ℕ × ℚ × ℚ) → ℕ → ℚ × ℚ → List (ℕ × ℚ × ℚ)
  | [], _, _ => []
  | e :: rest, id, v => (if e.1 == id then (e.1, v) else e) :: setPos rest id v

/-- One step of the `forEach` scan that selects the swap target: skip the
grabbed id; otherwise keep the entry when it is within the threshold and
closer than the best so far (`none` = `minDist` still `Infinity`). -/
def swapStep (g : ℕ) (gp : ℚ × ℚ) (acc : Option (ℕ × ℚ)) (e : ℕ × ℚ × ℚ) :
    Option (ℕ × ℚ) :=
  if e.1 == g then acc
  else
    let d2 := dist2 gp e.2
    match acc with
    | none => if d2 < swapThreshold2 then some (e.1, d2) else none
    | some (t, m) =>
        if d2 < swapThreshold2 ∧ d2 < m then some (e.1, d2) else some (t, m)

/-- The whole scan over `Object.entries(elementPositions)`. -/
def swapScan (g : ℕ) (gp : ℚ × ℚ) (ps : List (ℕ × ℚ × ℚ)) :
    Option (ℕ × ℚ) :=
  ps.foldl (swapStep g gp) none

/-- The selected `swapTarget` id, if any. -/
def findSwapTarget (g : ℕ) (gp : ℚ × ℚ) (ps : List (ℕ × ℚ × ℚ)) : Option ℕ :=
  (swapScan g gp ps).map (fun r => r.1)

/-- Interaction Overlay state relevant to a release. -/
structure OverlayState where
  positions : List (ℕ × ℚ × ℚ)
  grabbedId : Option ℕ
  grabbedStartPos : Option (ℚ × ℚ)
deriving DecidableEq

/-- The pinch-release block (`unnamed/part_002` 274–324): guarded by a live
grab; finds the swap target from the grabbed element's current position; on
`swapTarget && grabbedStartPosRef.current` writes
`{...prev, [grabbedId]: targetPos, [swapTarget]: originalPos}`, otherwise
reverts the grabbed element to its pre-grab position when that is recorded;
always clears `grabbedIdRef` and `grabbedStartPosRef`.
(The grabbed id is always a key of `elementPositions` when a grab is live;
the `none` lookup fallback below is unreachable in the embedded states.) -/
def releaseGrab (st : OverlayState) : OverlayState :=
  match st.grabbedId with
  | none => st
  | some g =>
    match lookupPos st.positions g with
    | none => { st with grabbedId := none, grabbedStartPos := none }
    | some gp =>
      match findSwapTarget g gp st.positions, st.grabbedStartPos with
      | some t, some orig =>
          let tp := (lookupPos st.positions t).getD (0, 0)
          { positions := setPos (setPos st.positions g tp) t orig
            grabbedId := none
            grabbedStartPos := none }
      | some _, none => { st with grabbedId := none, grabbedStartPos := none }
      | none, some orig =>
          { positions := setPos st.positions g orig
            grabbedId := none
            grabbedStartPos := none }
      | none, none => { st with grabbedId := none, grabbedStartPos := none }

/-! ## Linear (array/string) layout

Three embedded layouts:

* `unnamed/part_004`, array branch of `renderStructure` (552–565):
  `spacing = 90; arrStartX = -(Math.max(data.length - 1, 0) * spacing / 2)`,
  element `idx` at `arrStartX + idx * spacing` (anchor: the origin).
* `unnamed/part_002`, `getBasePositions` (32–45): `blockW = 90; gap = 35;`
  `totalWidth = n * (blockW + gap) - gap;`
  `startX = Math.max(width * 0.42, (width - totalWidth) / 2)`,
  element `i` at `startX + i * (blockW + gap)`.
* `Visualizer.tsx` (80–90), with its own constants `blockW = 60; gap = 14`
  (lines 26–28): `totalWidth = n * (blockW + gap) - gap;`
  `startX = Math.max(width * 0.45, (width * 0.4) + (width * 0.55 - totalWidth) / 2)`,
  element `i` at `startX + i * (blockW + gap)`. -/

/-- `unnamed/part_004`: `arrStartX = -(Math.max(data.length - 1, 0) * 90 / 2)`. -/
def arrStartX (n : ℕ) : ℚ := -((max ((n : ℤ) - 1) 0 : ℤ) * 90 / 2 : ℚ)

/-- `unnamed/part_004`: x-position of array element `i`. -/
def arrPosX (n i : ℕ) : ℚ := arrStartX n + (i : ℚ) * 90

/-- `unnamed/part_002` block width (`blockW = 90`, line 27). -/
def blockW : ℚ := 90

/-- `unnamed/part_002` gap between blocks (`gap = 35`, line 29). -/
def gapW : ℚ := 35

/-- `unnamed/part_002`: `totalWidth = dataLength * (blockW + gap) - gap`. -/
def totalWidth (n : ℕ) : ℚ := (n : ℚ) * (blockW + gapW) - gapW

/-- `Visualizer.tsx` block width (`blockW = 60`, line 26). -/
def vizBlockW : ℚ := 60

/-- `Visualizer.tsx` gap between blocks (`gap = 14`, line 28). -/
def vizGapW : ℚ := 14

/-- `Visualizer.tsx`: `totalWidth = data.length * (blockW + gap) - gap`. -/
def vizTotalWidth (n : ℕ) : ℚ := (n : ℚ) * (vizBlockW + vizGapW) - vizGapW

/-- `unnamed/part_002` `getBasePositions` start:
`Math.max(width * 0.42, (width - totalWidth) / 2)`. -/
def basePosStartX (n : ℕ) (w : ℚ) : ℚ :=
  max (w * (42 / 100)) ((w - totalWidth n) / 2)

/-- `unnamed/part_002`: x-position of `item-i`. -/
def basePosX (n : ℕ) (w : ℚ) (i : ℕ) : ℚ :=
  basePosStartX n w + (i : ℚ) * (blockW + gapW)

/-- `Visualizer.tsx` array start:
`Math.max(width * 0.45, (width * 0.4) + (width * 0.55 - totalWidth) / 2)`. -/
def vizStartX (n : ℕ) (w : ℚ) : ℚ :=
  max (w * (45 / 100)) (w * (40 / 100) + (w * (55 / 100) - vizTotalWidth n) / 2)

/-- `Visualizer.tsx`: x-position of `item-i`, at pitch `blockW + gap = 74`. -/
def vizPosX (n : ℕ) (w : ℚ) (i : ℕ) : ℚ :=
  vizStartX n w + (i : ℚ) * (vizBlockW + vizGapW)

/-! ## Numeric safety (`renderNode` in `unnamed/part_001` 75–78 and
`unnamed/part_004` 225–228)

`const safeX = Number.isFinite(x) ? x : 0;` and likewise for `y`.
A JS number is either a finite double, `NaN`, or a signed infinity; the
finite values are modelled by `ℚ`.

Scope note: only `renderNode`'s two coordinates pass through this guard.
The tree branch of `unnamed/part_004` hands `node.x`/`node.y` to its line
renderer (`renderTreeLine`, used at 856–863 as `centerX + node.x`, …) and
to its node/glow `div`s (926–927, 894–895, 911–912) with no finiteness
check; in this exact-rational embedding the layout arithmetic cannot
produce a non-finite value, so only the guard itself is provable here —
whether those unguarded coordinates ever receive `NaN`/`Infinity` is a
question of IEEE-754 double overflow (e.g. `Math.pow` in `levelSpacing`),
outside this embedding. -/

/-- A JavaScript number: finite, `NaN`, `Infinity` or `-Infinity`. -/
inductive JSNum where
  | num (q : ℚ) : JSNum
  | nan : JSNum
  | posInf : JSNum
  | negInf : JSNum
deriving DecidableEq

/-- `Number.isFinite`. -/
def JSNum.isFinite : JSNum → Bool
  | .num _ => true
  | _ => false

/-- `Number.isFinite(x) ? x : 0` — the `safeX`/`safeY` substitution. -/
def safeCoord (x : JSNum) : JSNum := if x.isFinite then x else .num 0

/-- The coordinate pair `renderNode` hands to the renderer (the `left`/`top`
of the absolutely positioned node element). -/
def renderNodePos (x y : JSNum) : JSNum × JSNum := (safeCoord x, safeCoord y)

/-! ## Tree layout (`unnamed/part_004`, tree branch of `renderStructure`)

`parseObjectTree` (576–622) walks a nested object tree depth-first,
pushing each node onto `treeNodes` before its children (preorder), assigning
sequential ids: the current node takes `nodeId`, then each child subtree is
parsed in order, and the node records its children's ids. Values and `y`
coordinates do not influence the horizontal layout and are omitted.

`calculatePositions` (700–782) then:
1. groups nodes by level (in `treeNodes` order);
2. `maxChildren = Math.max(...treeNodes.map(n => n.children.length), 2)`,
   `baseSpacing = Math.max(70, 100 / maxChildren)`;
3. places levels bottom-up: the bottom level evenly with pitch `baseSpacing`
   centred on 0; on other levels, a node with children at the mean of its
   children's x, and a childless node at
   `-totalWidth/2 + idx * levelSpacing` with
   `levelSpacing = baseSpacing * maxChildren^(maxLevel - level)` and
   `totalWidth = (levelList.length - 1) * levelSpacing`;
4. per level, sorts the nodes by `x` (JS `Array.prototype.sort` is stable)
   and makes a single left-to-right pass: whenever
   `nodes[i].x - nodes[i-1].x < minGap` with `minGap = baseSpacing * 0.8`,
   shifts `nodes[i-1]` left and `nodes[i]` right by
   `(minGap - (nodes[i].x - nodes[i-1].x)) / 2`;
5. recentres all x by `-(minX + maxX) / 2`.

Each parsed node carries a mutable `x` initialised to 0; the layout is
modelled as an association list `ℕ → ℚ` from node id to current x (node ids
are distinct by construction, and each node's children all exist in
`treeNodes`, so the code's `treeNodes.filter(n => children.includes(n.id))`
is exactly the node's recorded child-id list). -/

/-- A parsed tree node: id, depth level, children ids. -/
structure LNode where
  id : ℕ
  level : ℕ
  children : List ℕ
deriving DecidableEq, Repr

/-- A nested object tree; values are irrelevant to the layout. -/
inductive RawTree where
  | node (children : List RawTree) : RawTree

mutual

/-- `parseObjectTree`: parse one node at depth `lvl`, taking id `nid`;
returns the preorder node list of the subtree and the next free id. -/
def parseNode : RawTree → ℕ → ℕ → List LNode × ℕ
  | .node cs, lvl, nid =>
    let r := parseChildren cs (lvl + 1) (nid + 1)
    (⟨nid, lvl, r.2.1⟩ :: r.1, r.2.2)

/-- Parse a list of sibling subtrees in order, collecting their root ids. -/
def parseChildren : List RawTree → ℕ → ℕ → List LNode × List ℕ × ℕ
  | [], _, nid => ([], [], nid)
  | t :: ts, lvl, nid =>
    let r1 := parseNode t lvl nid
    let r2 := parseChildren ts lvl r1.2
    (r1.1 ++ r2.1, nid :: r2.2.1, r2.2.2)

end

/-- `treeNodes` produced by parsing a whole object tree from the root. -/
def parseTree (t : RawTree) : List LNode := (parseNode t 0 0).1

/-- The nodes of one level, in `treeNodes` order (the grouping loop pushes
in iteration order). -/
def levelOf (nodes : List LNode) (l : ℕ) : List LNode :=
  nodes.filter (fun n => n.level == l)

/-- `maxLevel`. -/
def maxLevelOf (nodes : List LNode) : ℕ :=
  nodes.foldl (fun m n => max m n.level) 0

/-- `maxChildren = Math.max(...treeNodes.map(n => n.children.length), 2)`. -/
def maxChildrenOf (nodes : List LNode) : ℕ :=
  nodes.foldl (fun m n => max m n.children.length) 2

/-- `baseSpacing = Math.max(70, 100 / maxChildren)`. -/
def baseSpacingOf (nodes : List LNode) : ℚ :=
  max 70 (100 / (maxChildrenOf nodes : ℚ))

/-- `minGap = baseSpacing * 0.8`. -/
def minGapOf (nodes : List LNode) : ℚ := baseSpacingOf nodes * (8 / 10)

/-- The per-node x coordinates, keyed by node id (`node.x`, initially 0). -/
abbrev XMap := List (ℕ × ℚ)

/-- Read `node.x`. -/
def getX : XMap → ℕ → ℚ
  | [], _ => 0
  | e :: rest, id => if e.1 == id then e.2 else getX rest id

/-- Write `node.x`. -/
def setX (xs : XMap) (id : ℕ) (v : ℚ) : XMap :=
  xs.map (fun e => if e.1 == id then (e.1, v) else e)

/-- `levelNodesList.indexOf(node)`, by id. -/
def idxIn (l : List LNode) (id : ℕ) : ℕ := l.findIdx (fun n => n.id == id)

/-- `nodes.forEach((node, i) => node.x = -totalWidth/2 + i * baseSpacing)`. -/
def placeBottomAux (bs tw : ℚ) : ℕ → List LNode → XMap → XMap
  | _, [], xs => xs
  | i, n :: rest, xs =>
    placeBottomAux bs tw (i + 1) rest (setX xs n.id (-(tw / 2) + (i : ℚ) * bs))

/-- Bottom level: even spacing by `baseSpacing` with
`totalWidth = (nodes.length - 1) * baseSpacing`. -/
def placeBottom (lvl : List LNode) (bs : ℚ) (xs : XMap) : XMap :=
  placeBottomAux bs (((lvl.length : ℚ) - 1) * bs) 0 lvl xs

/-- A non-bottom level: parents at the mean of their children's x, childless
nodes by the level-index formula. -/
def placeUpper (lvl : List LNode) (bs : ℚ) (mc maxL l : ℕ) (xs : XMap) : XMap :=
  lvl.foldl
    (fun acc n =>
      match n.children with
      | [] =>
        let ls : ℚ := bs * ((mc : ℚ) ^ (maxL - l))
        let tw : ℚ := ((lvl.length : ℚ) - 1) * ls
        setX acc n.id (-(tw / 2) + (idxIn lvl n.id : ℚ) * ls)
      | _ =>
        let cxs := n.children.map (getX acc)
        setX acc n.id (cxs.sum / (cxs.length : ℚ)))
    xs

/-- Initial placement, level by level from `maxLevel` down to 0, starting
from the parse-time `x = 0` entries. -/
def initialPlacement (nodes : List LNode) : XMap :=
  let maxL := maxLevelOf nodes
  let mc := maxChildrenOf nodes
  let bs := baseSpacingOf nodes
  (List.range (maxL + 1)).foldl
    (fun acc k =>
      let l := maxL - k
      let lvl := levelOf nodes l
      if l == maxL then placeBottom lvl bs acc
      else placeUpper lvl bs mc maxL l acc)
    (nodes.map (fun n => (n.id, 0)))

/-- Stable insertion by position: an element is placed before the first
strictly larger element and after equal ones, matching JS's stable
`sort((a, b) => a.x - b.x)`. -/
def insertByX (xs : XMap) (n : LNode) : List LNode → List LNode
  | [] => [n]
  | m :: rest =>
    if getX xs n.id ≤ getX xs m.id then n :: m :: rest
    else m :: insertByX xs n rest

/-- Stable sort of a level's nodes by their current x. -/
def sortByX (xs : XMap) : List LNode → List LNode
  | [] => []
  | n :: rest => insertByX xs n (sortByX xs rest)

/-- The overlap-resolution pass on the positions of one sorted level:
`prev` is the current position of `nodes[i-1]`, already incorporating any
right-shift it received in the previous iteration. When the gap to the next
position is below `g`, both are shifted apart by `(g - gap) / 2`;
`nodes[i-1]` is then final. -/
def passAux (g prev : ℚ) : List ℚ → List ℚ
  | [] => [prev]
  | xx :: rest =>
    if xx - prev < g then
      let s := (g - (xx - prev)) / 2
      (prev - s) :: passAux g (xx + s) rest
    else prev :: passAux g xx rest

/-- The single left-to-right overlap-resolution pass (`for (let i = 1; ...)`). -/
def resolveOverlaps (g : ℚ) : List ℚ → List ℚ
  | [] => []
  | xx :: rest => passAux g xx rest

/-- Resolve overlaps on one level: sort its nodes by x, run the pass, and
write the new positions back. -/
def applyLevelPass (g : ℚ) (lvl : List LNode) (xs : XMap) : XMap :=
  let ids := (sortByX xs lvl).map (fun n => n.id)
  let ys := resolveOverlaps g (ids.map (getX xs))
  (ids.zip ys).foldl (fun acc e => setX acc e.1 e.2) xs

/-- Overlap resolution over all levels, 0 up to `maxLevel`. -/
def resolveAllLevels (nodes : List LNode) (xs : XMap) : XMap :=
  let maxL := maxLevelOf nodes
  let g := minGapOf nodes
  (List.range (maxL + 1)).foldl
    (fun acc l => applyLevelPass g (levelOf nodes l) acc) xs

/-- Recentre: shift every node's x by `-(minX + maxX) / 2`. -/
def centerTreeX (nodes : List LNode) (xs : XMap) : XMap :=
  match nodes with
  | [] => xs
  | n0 :: rest =>
    let vals := (n0 :: rest).map (fun n => getX xs n.id)
    let mn := vals.foldl min (getX xs n0.id)
    let mx := vals.foldl max (getX xs n0.id)
    let off := -((mn + mx) / 2)
    (n0 :: rest).foldl (fun acc n => setX acc n.id (getX xs n.id + off)) xs

/-- Final horizontal tree layout: parse, place, resolve overlaps, recentre. -/
def treeLayoutX (t : RawTree) : XMap :=
  let nodes := parseTree t
  centerTreeX nodes (resolveAllLevels nodes (initialPlacement nodes))

/-- A childless node, for building concrete trees. -/
def leafT : RawTree := .node []

/-- The counterexample tree for the overlap-resolution claim: a root with
four children — `A` with three leaf children, `B` with one, a leaf `L`,
and `C` with one leaf child. Preorder ids: root 0, A 1 (children 2 3 4),
B 5 (child 6), L 7, C 8 (child 9). -/
def cexTree : RawTree :=
  .node [.node [leafT, leafT, leafT], .node [leafT], leafT, .node [leafT]]

/-! ## Analysis-result processing (`simulateCode`) and load handlers

`simulateCode` (`algovision-pro/services/geminiService.ts` 61–100, and
`unnamed/part_005` 75–106 without the `type` override) parses the response
body with `JSON.parse` and maps each raw step:

* body unparseable → `catch` → resolve with `[]`;
* `JSON.parse(s.viz.data)` fails → `parsedData = s.viz.data` (the raw string);
* `s.viz.pointers` falsy (absent or the empty string) → `{}`; present but
  unparseable → `catch` → `{}`.

The response is produced under a `responseSchema` requiring an array of
objects `{codeLine, message, viz: {type, data, pointers?}}` with string
`data`/`pointers`, so the parsed body is modelled as
`Option (List RawStep)` (`none` = `JSON.parse` threw) and `JSON.parse` on the
inner strings as an arbitrary function `parse : String → Option JVal`. -/

/-- A parsed JSON value. -/
inductive JVal where
  | jnull : JVal
  | jbool (b : Bool) : JVal
  | jnum (q : ℚ) : JVal
  | jstr (s : String) : JVal
  | jarr (xs : List JVal) : JVal
  | jobj (fields : List (String × JVal)) : JVal

/-- The `viz` object of a raw response step (schema: `type`, `data` strings,
`pointers` optional string). -/
structure RawViz where
  vtype : String
  data : String
  pointers : Option String
deriving DecidableEq

/-- A raw response step (schema: `codeLine`, `message`, `viz`). -/
structure RawStep where
  codeLine : ℤ
  message : String
  viz : RawViz
deriving DecidableEq

/-- A processed animation step as built by `simulateCode`. -/
structure AStep where
  codeLine : ℤ
  message : String
  vtype : String
  data : JVal
  pointers : JVal

/-- Per-step processing of `geminiService.ts` (the `algoType` argument
overrides `viz.type`): data falls back to the raw string, pointers to `{}`. -/
def processStepApp (parse : String → Option JVal) (algoType : String)
    (s : RawStep) : AStep :=
  let parsedData :=
    match parse s.viz.data with
    | some v => v
    | none => JVal.jstr s.viz.data
  let parsedPointers :=
    match s.viz.pointers with
    | none => JVal.jobj []
    | some p =>
      if p = "" then JVal.jobj []
      else
        match parse p with
        | some v => v
        | none => JVal.jobj []
  ⟨s.codeLine, s.message, algoType, parsedData, parsedPointers⟩

/-- Per-step processing of `unnamed/part_005` (identical, but `viz.type` is
kept from the response). -/
def processStep005 (parse : String → Option JVal) (s : RawStep) : AStep :=
  { processStepApp parse s.viz.vtype s with vtype := s.viz.vtype }

/-- `simulateCode` result (geminiService.ts): `[]` on an unparseable body,
else the processed steps. -/
def simulateCodeSteps (parse : String → Option JVal) (algoType : String)
    (body : Option (List RawStep)) : List AStep :=
  match body with
  | none => []
  | some raws => raws.map (processStepApp parse algoType)

/-- `simulateCode` result (`unnamed/part_005`). -/
def simulateCodeSteps005 (parse : String → Option JVal)
    (body : Option (List RawStep)) : List AStep :=
  match body with
  | none => []
  | some raws => raws.map (processStep005 parse)

/-- The `App.tsx` state touched by `handleRun` and the playback controls. -/
structure AppState where
  steps : List AStep
  currentStepIdx : ℤ
  isPlaying : Bool
  isLoading : Bool

/-- `handleRun` (`App.tsx` 120–132): on a resolved `simulateCode` promise,
`setSteps(resultSteps); setCurrentStepIdx(0);
if (resultSteps.length > 0) setIsPlaying(true);`; on a rejected promise the
`catch` only logs; `finally` clears the loading flag. -/
def handleRun (parse : String → Option JVal) (algoType : String)
    (st : AppState) (outcome : Except String (Option (List RawStep))) :
    AppState :=
  match outcome with
  | .error _ => { st with isLoading := false }
  | .ok body =>
    let rs := simulateCodeSteps parse algoType body
    { steps := rs
      currentStepIdx := 0
      isPlaying := if rs.length > 0 then true else st.isPlaying
      isLoading := false }

/-- The `unnamed/part_004` state touched by `handleHologramAnalyze`; the
analysis result type is abstract (`analyzeAlgorithm` lives outside `src/`). -/
structure HoloState (α : Type) where
  algoMetadata : Option α
  currentStepIndex : ℤ
  isHologramPlaying : Bool
  isHologramLoading : Bool
deriving DecidableEq

/-- `handleHologramAnalyze` (`unnamed/part_004` 1502–1525): on success,
`setAlgoMetadata(result); setCurrentStepIndex(0);
setIsHologramPlaying(true);`; on failure the `catch` raises an `alert`
(returned here as the second component) and touches no other state;
`finally` clears the loading flag. -/
def handleHologramAnalyze {α : Type} (st : HoloState α)
    (outcome : Except String α) : HoloState α × Bool :=
  match outcome with
  | .ok result =>
    ({ algoMetadata := some result
       currentStepIndex := 0
       isHologramPlaying := true
       isHologramLoading := false }, false)
  | .error _ => ({ st with isHologramLoading := false }, true)

/-! ## Concrete inputs used by witnesses and counterexamples -/

/-- A parse function that fails on every string (an unparseable body or
field). -/
def parse0 : String → Option JVal := fun _ => none

/-- A concrete raw response step. -/
def rawStep0 : RawStep := ⟨1, "compare", ⟨"ARRAY", "[1,2]", none⟩⟩

/-- A concrete processed step. -/
def astep0 : AStep := ⟨1, "compare", "ARRAY", .jnull, .jobj []⟩

/-- An `App.tsx` state with one loaded step. -/
def appState1 : AppState := ⟨[astep0], 0, false, false⟩

/-- A hologram state with no metadata, auto-play off. -/
def holoState0 : HoloState Unit := ⟨none, 5, false, true⟩

/-- Overlay state for the swap witness: element 0 grabbed from `(0, 0)` and
dragged to `(100, 10)`, next to element 1 at `(100, 0)`. -/
def overlaySwapSt : OverlayState :=
  ⟨[(0, (100, 10)), (1, (100, 0))], some 0, some (0, 0)⟩

/-- Overlay state for the revert witness: element 0 grabbed from `(0, 0)` and
dragged to `(1000, 0)`, far from element 1 at `(100, 0)`. -/
def overlayRevertSt : OverlayState :=
  ⟨[(0, (1000, 0)), (1, (100, 0))], some 0, some (0, 0)⟩

/-- The node list parsed from `cexTree` (preorder, levels 0/1/2). -/
def cexNodes : List LNode :=
  [⟨0, 0, [1, 5, 7, 8]⟩, ⟨1, 1, [2, 3, 4]⟩, ⟨2, 2, []⟩, ⟨3, 2, []⟩,
   ⟨4, 2, []⟩, ⟨5, 1, [6]⟩, ⟨6, 2, []⟩, ⟨7, 1, []⟩, ⟨8, 1, [9]⟩, ⟨9, 2, []⟩]

/-- `cexTree` positions after initial placement (bottom row at pitch 70,
parents at child means, the childless level-1 node by the index formula). -/
def cexX1 : XMap :=
  [(0, 70), (1, -70), (2, -140), (3, -70), (4, 0), (5, 70), (6, 70),
   (7, 140), (8, 140), (9, 140)]

/-- `cexTree` positions after the overlap-resolution pass: on level 1 the
tied pair at 140 is pushed to 112/168, landing node 7 at 42 from node 5. -/
def cexX2 : XMap :=
  [(0, 70), (1, -70), (2, -140), (3, -70), (4, 0), (5, 70), (6, 70),
   (7, 112), (8, 168), (9, 140)]

/-- `cexTree` positions after recentring (offset `-14`). -/
def cexX3 : XMap :=
  [(0, 56), (1, -84), (2, -154), (3, -84), (4, -14), (5, 56), (6, 56),
   (7, 98), (8, 154), (9, 126)]

/-- Loop invariant of the swap-target scan: after processing a prefix of the
entries, `none` means no non-grabbed entry of the prefix was within the
threshold, and `some (t, m)` means `t` is a non-grabbed entry of the prefix
at squared distance `m`, within the threshold and minimal so far. -/
def ScanInv (g : ℕ) (gp : ℚ × ℚ) (processed : List (ℕ × ℚ × ℚ))
    (acc : Option (ℕ × ℚ)) : Prop :=
  match acc with
  | none => ∀ e ∈ processed, e.1 ≠ g → ¬ dist2 gp e.2 < swapThreshold2
  | some (t, m) =>
      m < swapThreshold2 ∧
      (∃ e ∈ processed, e.1 = t ∧ t ≠ g ∧ dist2 gp e.2 = m) ∧
      ∀ e ∈ processed, e.1 ≠ g → dist2 gp e.2 < swapThreshold2 →
        m ≤ dist2 gp e.2

/-! # Theorems -/

/-- One cursor operation preserves `0 ≤ i ≤ L - 1` when `L ≥ 1`. -/
theorem applyOp_bounds (L : ℕ) (hL : 1 ≤ L) (i : ℤ) (h0 : 0 ≤ i)
    (h1 : i ≤ (L : ℤ) - 1) (op : CursorOp) :
    0 ≤ applyOp L i op ∧ applyOp L i op ≤ (L : ℤ) - 1 := by
  have hL' : (1 : ℤ) ≤ (L : ℤ) := by exact_mod_cast hL
  cases op <;>
    simp only [applyOp, appNextIdx, appPrevIdx, appTickIdx, holoNextIdx,
      holoPrevIdx, holoSeekIdx, min_def, max_def] <;>
    split_ifs <;> omega

/-- Any finite run of cursor operations preserves `0 ≤ i ≤ L - 1`. -/
theorem runOps_bounds (L : ℕ) (hL : 1 ≤ L) :
    ∀ (ops : List CursorOp) (i : ℤ), 0 ≤ i → i ≤ (L : ℤ) - 1 →
      0 ≤ runOps L i ops ∧ runOps L i ops ≤ (L : ℤ) - 1 := by
  intro ops
  induction ops with
  | nil => intro i h0 h1; exact ⟨h0, h1⟩
  | cons op rest ih =>
      intro i h0 h1
      have h := applyOp_bounds L hL i h0 h1 op
      simpa [runOps, List.foldl_cons] using ih (applyOp L i op) h.1 h.2

/-- C1: for every loaded step sequence of length `L ≥ 1` and every starting
cursor in `[0, L-1]`, any finite sequence of next/prev/tick/seek operations
(either implementation) keeps the cursor in `[0, L-1]`; moreover next at the
last index leaves the cursor at `L-1` and prev at index 0 leaves it at 0. -/
theorem cursor_clamping_invariant (L : ℕ) (hL : 1 ≤ L) (i : ℤ)
    (h0 : 0 ≤ i) (h1 : i ≤ (L : ℤ) - 1) (ops : List CursorOp) :
    (0 ≤ runOps L i ops ∧ runOps L i ops ≤ (L : ℤ) - 1) ∧
    appNextIdx L ((L : ℤ) - 1) = (L : ℤ) - 1 ∧
    holoNextIdx L ((L : ℤ) - 1) = (L : ℤ) - 1 ∧
    appPrevIdx 0 = 0 ∧ holoPrevIdx 0 = 0 := by
  refine ⟨runOps_bounds L hL ops i h0 h1, ?_, ?_, ?_, ?_⟩ <;>
    simp [appNextIdx, holoNextIdx, appPrevIdx, holoPrevIdx]

/-- Witness for the cursor-clamping invariant at `L = 2`, start `1`, and a
concrete operation sequence. -/
theorem cursor_clamping_invariant_witness :
    (0 ≤ runOps 2 1 [.anext, .atick, .hprev, .hseek 7, .aprev] ∧
     runOps 2 1 [.anext, .atick, .hprev, .hseek 7, .aprev] ≤ (2 : ℤ) - 1) ∧
    appNextIdx 2 ((2 : ℤ) - 1) = (2 : ℤ) - 1 ∧
    holoNextIdx 2 ((2 : ℤ) - 1) = (2 : ℤ) - 1 ∧
    appPrevIdx 0 = 0 ∧ holoPrevIdx 0 = 0 :=
  cursor_clamping_invariant 2 (by decide) 1 (by decide) (by decide) _

/-- C3 counterexample: with an empty sequence and cursor 0, the `App.tsx`
next button computes `Math.min(0 - 1, 0 + 1) = -1`, changing the cursor. -/
theorem empty_next_counterexample : appNextIdx 0 0 = -1 ∧ (-1 : ℤ) ≠ 0 := by
  decide

/-- C3 (amended): on an empty sequence at cursor 0, the hologram next/prev,
the slider seek (whose delivered value is clamped to 0) and the `App.tsx`
prev button leave the cursor at 0, but the `App.tsx` next button sets it
to `-1`. -/
theorem empty_sequence_ops :
    holoNextIdx 0 0 = 0 ∧ holoPrevIdx 0 = 0 ∧ holoSeekIdx 0 0 = 0 ∧
    appPrevIdx 0 = 0 ∧ appNextIdx 0 0 = -1 := by
  decide

/-- The pinch state machine stays engaged while every frame distance stays
below the release threshold. -/
theorem runPinch_stays_true (tOn tOff : ℚ) :
    ∀ ds : List ℚ, (∀ d ∈ ds, d < tOff) →
      runPinch tOn tOff true ds = true := by
  intro ds
  induction ds with
  | nil => intro _; rfl
  | cons d rest ih =>
      intro h
      have hd : pinchStep tOn tOff true d = true := by
        simp [pinchStep]
        exact h d (by simp)
      rw [runPinch, List.foldl_cons, hd]
      exact ih (fun d' hd' => h d' (by simp [hd']))

/-- C5: both pinch detectors use an engage threshold strictly below the
release threshold; once engaged, the state stays engaged on every frame whose
distance is below the release threshold, and a frame disengages it exactly
when its distance reaches the release threshold. -/
theorem pinch_hysteresis :
    pinchOnA < pinchOffA ∧ pinchOnB < pinchOffB ∧
    (∀ ds : List ℚ, (∀ d ∈ ds, d < pinchOffA) →
      runPinch pinchOnA pinchOffA true ds = true) ∧
    (∀ ds : List ℚ, (∀ d ∈ ds, d < pinchOffB) →
      runPinch pinchOnB pinchOffB true ds = true) ∧
    (∀ d : ℚ, pinchStep pinchOnA pinchOffA true d = false ↔ pinchOffA ≤ d) ∧
    (∀ d : ℚ, pinchStep pinchOnB pinchOffB true d = false ↔ pinchOffB ≤ d) := by
  refine ⟨by norm_num [pinchOnA, pinchOffA], by norm_num [pinchOnB, pinchOffB],
    runPinch_stays_true _ _, runPinch_stays_true _ _, ?_, ?_⟩ <;>
    intro d <;> simp [pinchStep, not_lt]

/-- Witness for the hysteresis theorem: a distance sequence hovering between
the engage and release thresholds keeps `isPinching` true. -/
theorem pinch_hysteresis_witness :
    (∀ d ∈ [(7 : ℚ) / 100, 8 / 100, 7 / 100], d < pinchOffA) ∧
    runPinch pinchOnA pinchOffA true [(7 : ℚ) / 100, 8 / 100, 7 / 100] = true :=
  ⟨by norm_num [pinchOffA], pinch_hysteresis.2.2.1 _ (by norm_num [pinchOffA])⟩

/-- The `renderNode` guard in isolation (not a settlement of the global
numeric-safety contract, which also covers render paths that have no such
guard — see the scope note at `JSNum`): for any coordinates, including
`NaN` and the infinities, the pair `renderNode` hands to the renderer is
finite; a finite input passes through unchanged and a non-finite input is
replaced by `0`. -/
theorem render_coordinates_finite (x y : JSNum) :
    ((renderNodePos x y).1.isFinite = true ∧
     (renderNodePos x y).2.isFinite = true) ∧
    (x.isFinite = true → (renderNodePos x y).1 = x) ∧
    (x.isFinite = false → (renderNodePos x y).1 = JSNum.num 0) ∧
    (y.isFinite = true → (renderNodePos x y).2 = y) ∧
    (y.isFinite = false → (renderNodePos x y).2 = JSNum.num 0) := by
  cases x <;> cases y <;> simp [renderNodePos, safeCoord, JSNum.isFinite]

/-- Concrete instance of the `renderNode` guard: a `NaN` x-coordinate is
substituted by a finite `0`. -/
theorem render_coordinates_finite_witness :
    ((renderNodePos JSNum.nan (JSNum.num 3)).1.isFinite = true ∧
     (renderNodePos JSNum.nan (JSNum.num 3)).2.isFinite = true) ∧
    (renderNodePos JSNum.nan (JSNum.num 3)).1 = JSNum.num 0 :=
  ⟨(render_coordinates_finite JSNum.nan (JSNum.num 3)).1,
   (render_coordinates_finite JSNum.nan (JSNum.num 3)).2.2.1 rfl⟩

/-- Parsing the counterexample tree yields `cexNodes`. -/
theorem parseTree_cexTree : parseTree cexTree = cexNodes := by
  simp [parseTree, cexTree, leafT, parseNode, parseChildren, cexNodes]

/-- Initial placement of the counterexample tree. -/
theorem initialPlacement_cex : initialPlacement cexNodes = cexX1 := by
  norm_num [initialPlacement, maxLevelOf, maxChildrenOf, baseSpacingOf,
    cexNodes, levelOf, placeBottom, placeBottomAux, placeUpper, getX, setX,
    idxIn, List.findIdx_cons, List.range_succ, max_def, cexX1,
    Bool.cond_eq_if, beq_iff_eq]

/-- The overlap-resolution pass on the counterexample tree. -/
theorem resolveAllLevels_cex : resolveAllLevels cexNodes cexX1 = cexX2 := by
  norm_num [resolveAllLevels, maxLevelOf, minGapOf, baseSpacingOf,
    maxChildrenOf, cexNodes, levelOf, applyLevelPass, sortByX, insertByX,
    resolveOverlaps, passAux, getX, setX, List.range_succ, max_def,
    cexX1, cexX2]

/-- Recentring the counterexample tree. -/
theorem centerTreeX_cex : centerTreeX cexNodes cexX2 = cexX3 := by
  norm_num [centerTreeX, cexNodes, getX, setX, min_def, max_def, cexX2, cexX3]

/-- The full layout of the counterexample tree. -/
theorem treeLayoutX_cex : treeLayoutX cexTree = cexX3 := by
  rw [treeLayoutX, parseTree_cexTree, initialPlacement_cex,
    resolveAllLevels_cex, centerTreeX_cex]

/-- C7 counterexample: in the tree `cexTree` (root with children A, B, leaf
L, C, where A has three leaf children and B and C one each), the final
layout has the level-1 nodes at `-84, 56, 98, 154`; the horizontally
adjacent same-level pair `B` (id 5) and `L` (id 7) is separated by `42`,
below the minimum gap `minGap = baseSpacing * 0.8 = 56`: the single
overlap-resolution pass re-broke the gap `B–L` while separating `L–C`. -/
theorem tree_min_gap_counterexample :
    parseTree cexTree = cexNodes ∧
    levelOf cexNodes 1 =
      [⟨1, 1, [2, 3, 4]⟩, ⟨5, 1, [6]⟩, ⟨7, 1, []⟩, ⟨8, 1, [9]⟩] ∧
    minGapOf cexNodes = 56 ∧
    getX (treeLayoutX cexTree) 1 = -84 ∧
    getX (treeLayoutX cexTree) 5 = 56 ∧
    getX (treeLayoutX cexTree) 7 = 98 ∧
    getX (treeLayoutX cexTree) 8 = 154 ∧
    getX (treeLayoutX cexTree) 7 - getX (treeLayoutX cexTree) 5 <
      minGapOf cexNodes := by
  refine ⟨parseTree_cexTree, ?_, ?_, ?_⟩
  · simp [levelOf, cexNodes]
  · norm_num [minGapOf, baseSpacingOf, maxChildrenOf, cexNodes, max_def]
  · rw [treeLayoutX_cex]
    norm_num [getX, cexX3, minGapOf, baseSpacingOf, maxChildrenOf, cexNodes,
      max_def]

/-- One-step unfolding of the pass at the end of a level. -/
theorem passAux_nil (g prev : ℚ) : passAux g prev [] = [prev] := rfl

/-- One-step unfolding of the pass at an adjacent pair. -/
theorem passAux_cons (g prev xx : ℚ) (rest : List ℚ) :
    passAux g prev (xx :: rest) =
      if xx - prev < g then
        (prev - (g - (xx - prev)) / 2) ::
          passAux g (xx + (g - (xx - prev)) / 2) rest
      else prev :: passAux g xx rest := rfl

/-- The overlap pass always leaves the final processed pair at a gap of at
least `g`: either the pair was already wide enough, or the symmetric shift
sets its gap to exactly `g`; nothing later in the pass touches it. -/
theorem passAux_last_gap (g : ℚ) :
    ∀ l : List ℚ, l ≠ [] → ∀ prev : ℚ,
      ∃ init : List ℚ, ∃ a b : ℚ,
        passAux g prev l = init ++ [a, b] ∧ g ≤ b - a := by
  intro l
  induction l with
  | nil => intro h; exact absurd rfl h
  | cons xx rest ih =>
    intro _ prev
    cases rest with
    | nil =>
      by_cases hc : xx - prev < g
      · refine ⟨[], prev - (g - (xx - prev)) / 2, xx + (g - (xx - prev)) / 2,
          by rw [passAux_cons, if_pos hc, passAux_nil]; rfl, ?_⟩
        have : xx + (g - (xx - prev)) / 2 - (prev - (g - (xx - prev)) / 2)
            = g := by ring
        linarith
      · exact ⟨[], prev, xx,
          by rw [passAux_cons, if_neg hc, passAux_nil]; rfl, by linarith⟩
    | cons y rest' =>
      by_cases hc : xx - prev < g
      · obtain ⟨init, a, b, heq, hg⟩ :=
          ih (by simp) (xx + (g - (xx - prev)) / 2)
        refine ⟨(prev - (g - (xx - prev)) / 2) :: init, a, b, ?_, hg⟩
        rw [passAux_cons, if_pos hc, heq]
        rfl
      · obtain ⟨init, a, b, heq, hg⟩ := ih (by simp) xx
        exact ⟨prev :: init, a, b,
          by rw [passAux_cons, if_neg hc, heq]; rfl, hg⟩

/-- C7 (amended): the overlap-resolution step is a single left-to-right
pass; a pair that it pushes apart ends at exactly the minimum gap at that
moment, and the *last* adjacent pair of every level is guaranteed to end at
or above the minimum gap — but the left member of a pushed pair moves left,
which can re-break an earlier gap, so not every same-level adjacent pair
ends at or above the minimum (see the counterexample). -/
theorem tree_overlap_pass_last_gap (g : ℚ) (xs : List ℚ)
    (h : 2 ≤ xs.length) :
    ∃ init : List ℚ, ∃ a b : ℚ,
      resolveOverlaps g xs = init ++ [a, b] ∧ g ≤ b - a := by
  match xs, h with
  | x :: y :: rest, _ => exact passAux_last_gap g (y :: rest) (by simp) x

/-- Witness: the pass on the level-1 positions of the counterexample tree
ends with the pair `112, 168`, whose gap is exactly the minimum 56. -/
theorem tree_overlap_pass_last_gap_witness :
    2 ≤ [(-70 : ℚ), 70, 140, 140].length ∧
    (∃ init : List ℚ, ∃ a b : ℚ,
      resolveOverlaps 56 [(-70 : ℚ), 70, 140, 140] = init ++ [a, b] ∧
      56 ≤ b - a) :=
  ⟨by norm_num,
   tree_overlap_pass_last_gap 56 [(-70 : ℚ), 70, 140, 140] (by norm_num)⟩

/-- C6 (amended): `unnamed/part_004` places array element `i` exactly at
`a + i*p - (n-1)*p/2` with anchor `a = 0` and pitch `p = 90`; in
`unnamed/part_002` the pitch is the constant `blockW + gap = 90 + 35 = 125`
and in `Visualizer.tsx` the constant `blockW + gap = 60 + 14 = 74`, and in
both the row is centred on its region's anchor exactly when the centred
start position does not fall below the left clamp (`width*0.42`, resp.
`width*0.45`); the midpoint of the first and last element centres then
equals the region centre (`width/2`, resp. `width*0.675`). -/
theorem linear_layout_centering :
    (∀ n i : ℕ, 1 ≤ n →
      arrPosX n i = 0 + (i : ℚ) * 90 - ((n : ℚ) - 1) * 90 / 2) ∧
    (∀ n : ℕ, ∀ w : ℚ, 1 ≤ n →
      w * (42 / 100) ≤ (w - totalWidth n) / 2 →
      (basePosX n w 0 + basePosX n w (n - 1)) / 2 + blockW / 2 = w / 2) ∧
    (∀ n : ℕ, ∀ w : ℚ, 1 ≤ n →
      w * (45 / 100) ≤
        w * (40 / 100) + (w * (55 / 100) - vizTotalWidth n) / 2 →
      (vizPosX n w 0 + vizPosX n w (n - 1)) / 2 + vizBlockW / 2 =
        w * (40 / 100) + w * (55 / 100) / 2) ∧
    (∀ (n : ℕ) (w : ℚ) (i : ℕ),
      basePosX n w (i + 1) - basePosX n w i = blockW + gapW) ∧
    (∀ (n : ℕ) (w : ℚ) (i : ℕ),
      vizPosX n w (i + 1) - vizPosX n w i = vizBlockW + vizGapW) := by
  refine ⟨?_, ?_, ?_, ?_, ?_⟩
  · intro n i hn
    have hn' : (1 : ℤ) ≤ (n : ℤ) := by exact_mod_cast hn
    have hmax : max ((n : ℤ) - 1) 0 = (n : ℤ) - 1 := by omega
    rw [arrPosX, arrStartX, hmax]
    push_cast
    ring
  · intro n w hn hcl
    have hcast : ((n - 1 : ℕ) : ℚ) = (n : ℚ) - 1 := by
      have : (1 : ℕ) ≤ n := hn
      push_cast [Nat.cast_sub this]
      ring
    rw [basePosX, basePosX, basePosStartX, max_eq_right hcl, hcast,
      totalWidth, blockW, gapW]
    ring
  · intro n w hn hcl
    have hcast : ((n - 1 : ℕ) : ℚ) = (n : ℚ) - 1 := by
      have : (1 : ℕ) ≤ n := hn
      push_cast [Nat.cast_sub this]
      ring
    rw [vizPosX, vizPosX, vizStartX, max_eq_right hcl, hcast,
      vizTotalWidth, vizBlockW, vizGapW]
    ring
  · intro n w i
    rw [basePosX, basePosX]
    push_cast
    ring
  · intro n w i
    rw [vizPosX, vizPosX]
    push_cast
    ring

/-- Witness for the linear-layout theorem: `n = 5` with `w = 3700` (wide
enough that the centred branch wins in `getBasePositions`), `n = 5` with
`w = 800` (wide enough for `Visualizer.tsx`'s centred branch), and the
constant pitches at `n = 5`, `w = 1000`, `i = 0`. -/
theorem linear_layout_centering_witness :
    ((1 : ℕ) ≤ 5 ∧ arrPosX 5 2 = 0 + (2 : ℚ) * 90 - ((5 : ℚ) - 1) * 90 / 2) ∧
    ((3700 : ℚ) * (42 / 100) ≤ (3700 - totalWidth 5) / 2 ∧
      (basePosX 5 3700 0 + basePosX 5 3700 (5 - 1)) / 2 + blockW / 2 =
        3700 / 2) ∧
    ((800 : ℚ) * (45 / 100) ≤
        800 * (40 / 100) + (800 * (55 / 100) - vizTotalWidth 5) / 2 ∧
      (vizPosX 5 800 0 + vizPosX 5 800 (5 - 1)) / 2 + vizBlockW / 2 =
        800 * (40 / 100) + 800 * (55 / 100) / 2) ∧
    basePosX 5 1000 (0 + 1) - basePosX 5 1000 0 = blockW + gapW ∧
    vizPosX 5 1000 (0 + 1) - vizPosX 5 1000 0 = vizBlockW + vizGapW :=
  ⟨⟨by norm_num, linear_layout_centering.1 5 2 (by norm_num)⟩,
   ⟨by norm_num [totalWidth, blockW, gapW],
    linear_layout_centering.2.1 5 3700 (by norm_num)
      (by norm_num [totalWidth, blockW, gapW])⟩,
   ⟨by norm_num [vizTotalWidth, vizBlockW, vizGapW],
    linear_layout_centering.2.2.1 5 800 (by norm_num)
      (by norm_num [vizTotalWidth, vizBlockW, vizGapW])⟩,
   linear_layout_centering.2.2.2.1 5 1000 0,
   linear_layout_centering.2.2.2.2 5 1000 0⟩

/-- C6 counterexample: `getBasePositions` at viewport width 1000 with 5
elements starts the row at `max(420, 205) = 420`; the midpoint of the first
and last element centres is `715`, not the viewport centre `500`, so the row
is not centred and `x_i = a + i*p - (n-1)*p/2` fails for the centre anchor. -/
theorem linear_layout_clamped_counterexample :
    basePosX 5 1000 0 = 420 ∧ basePosX 5 1000 4 = 920 ∧
    (basePosX 5 1000 0 + basePosX 5 1000 4) / 2 + blockW / 2 = 715 ∧
    (715 : ℚ) ≠ 1000 / 2 := by
  norm_num [basePosX, basePosStartX, totalWidth, blockW, gapW, max_def]

/-- C2 counterexample: a successful hologram analysis from a state with
auto-play off resets the cursor to 0 but *starts* auto-play
(`setIsHologramPlaying(true)`), so after a load auto-play is not stopped. -/
theorem load_starts_autoplay_counterexample :
    (handleHologramAnalyze holoState0 (Except.ok ())).1.currentStepIndex = 0 ∧
    holoState0.isHologramPlaying = false ∧
    ¬(handleHologramAnalyze holoState0 (Except.ok ())).1.isHologramPlaying
        = false := by
  refine ⟨rfl, rfl, ?_⟩
  simp [handleHologramAnalyze, holoState0]

/-- C2 (amended): after a load completes, the playback cursor equals 0, and
auto-play is *started* rather than stopped — always in the hologram engine,
and in `handleRun` exactly when the new sequence is nonempty (an empty
result leaves the prior play flag untouched). -/
theorem load_resets_cursor_and_starts_autoplay :
    (∀ (parse : String → Option JVal) (ty : String) (st : AppState)
        (body : Option (List RawStep)),
      (handleRun parse ty st (.ok body)).currentStepIdx = 0 ∧
      (simulateCodeSteps parse ty body ≠ [] →
        (handleRun parse ty st (.ok body)).isPlaying = true) ∧
      (simulateCodeSteps parse ty body = [] →
        (handleRun parse ty st (.ok body)).isPlaying = st.isPlaying)) ∧
    (∀ (α : Type) (st : HoloState α) (r : α),
      (handleHologramAnalyze st (.ok r)).1.currentStepIndex = 0 ∧
      (handleHologramAnalyze st (.ok r)).1.isHologramPlaying = true) := by
  constructor
  · intro parse ty st body
    refine ⟨rfl, ?_, ?_⟩
    · intro h
      have hp : 0 < (simulateCodeSteps parse ty body).length :=
        List.length_pos.mpr h
      simp [handleRun, hp]
    · intro h
      simp [handleRun, h]
  · intro α st r
    exact ⟨rfl, rfl⟩

/-- Witness: loading one processed step resets the cursor and turns
auto-play on. -/
theorem load_resets_cursor_and_starts_autoplay_witness :
    simulateCodeSteps parse0 "ARRAY" (some [rawStep0]) ≠ [] ∧
    (handleRun parse0 "ARRAY" appState1 (.ok (some [rawStep0]))).currentStepIdx
        = 0 ∧
    (handleRun parse0 "ARRAY" appState1 (.ok (some [rawStep0]))).isPlaying
        = true := by
  have h : simulateCodeSteps parse0 "ARRAY" (some [rawStep0]) ≠ [] := by
    simp [simulateCodeSteps]
  exact ⟨h,
    (load_resets_cursor_and_starts_autoplay.1 parse0 "ARRAY" appState1
      (some [rawStep0])).1,
    (load_resets_cursor_and_starts_autoplay.1 parse0 "ARRAY" appState1
      (some [rawStep0])).2.1 h⟩

/-- C9 counterexample: with one step loaded, a re-analysis whose response
body cannot be parsed resolves (it does not reject) with `[]`, and
`handleRun` then replaces the prior step sequence by the empty one — the
prior sequence is lost and the state coincides with "no data yet". -/
theorem unparseable_body_clears_steps_counterexample :
    appState1.steps ≠ [] ∧
    (handleRun parse0 "ARRAY" appState1 (.ok none)).steps = [] := by
  constructor
  · simp [appState1]
  · rfl

/-- C9 (amended): when the analysis call *rejects*, `handleRun` leaves the
steps, cursor and play flag untouched (only the loading flag is cleared),
and `handleHologramAnalyze` leaves its metadata, cursor and play flag
untouched while surfacing an alert; but a *resolved* response whose body
cannot be parsed is not a rejection: `simulateCode` resolves with `[]` and
`handleRun` replaces the prior sequence with the empty one. -/
theorem analysis_failure_atomicity :
    (∀ (parse : String → Option JVal) (ty : String) (st : AppState)
        (e : String),
      handleRun parse ty st (.error e) = { st with isLoading := false }) ∧
    (∀ (α : Type) (st : HoloState α) (e : String),
      (handleHologramAnalyze st (.error e)).1.algoMetadata
          = st.algoMetadata ∧
      (handleHologramAnalyze st (.error e)).1.currentStepIndex
          = st.currentStepIndex ∧
      (handleHologramAnalyze st (.error e)).1.isHologramPlaying
          = st.isHologramPlaying ∧
      (handleHologramAnalyze st (.error e)).2 = true) ∧
    (∀ (parse : String → Option JVal) (ty : String) (st : AppState),
      (handleRun parse ty st (.ok none)).steps = []) :=
  ⟨fun _ _ _ _ => rfl, fun _ _ _ => ⟨rfl, rfl, rfl, rfl⟩, fun _ _ _ => rfl⟩

/-- C10: `simulateCode` resolves with `[]` when the response body is
unparseable (in both copies), and per step an unparseable `viz.data` string
falls back to the raw string while absent or unparseable `viz.pointers`
fall back to the empty mapping — no error is raised anywhere. -/
theorem simulate_code_parse_fallbacks :
    (∀ (parse : String → Option JVal) (ty : String),
      simulateCodeSteps parse ty none = []) ∧
    (∀ parse : String → Option JVal, simulateCodeSteps005 parse none = []) ∧
    (∀ (parse : String → Option JVal) (ty : String) (s : RawStep),
      parse s.viz.data = none →
      (processStepApp parse ty s).data = .jstr s.viz.data) ∧
    (∀ (parse : String → Option JVal) (s : RawStep),
      parse s.viz.data = none →
      (processStep005 parse s).data = .jstr s.viz.data) ∧
    (∀ (parse : String → Option JVal) (ty : String) (s : RawStep),
      s.viz.pointers = none →
      (processStepApp parse ty s).pointers = .jobj []) ∧
    (∀ (parse : String → Option JVal) (ty : String) (s : RawStep)
        (p : String), s.viz.pointers = some p → parse p = none →
      (processStepApp parse ty s).pointers = .jobj []) := by
  refine ⟨fun _ _ => rfl, fun _ => rfl, ?_, ?_, ?_, ?_⟩
  · intro parse ty s h
    simp [processStepApp, h]
  · intro parse s h
    simp [processStep005, processStepApp, h]
  · intro parse ty s h
    simp [processStepApp, h]
  · intro parse ty s p hp hn
    by_cases hpe : p = "" <;> simp [processStepApp, hp, hn, hpe]

/-- Witness: a parse that fails on everything leaves the raw data string in
place and produces the empty pointer mapping. -/
theorem simulate_code_parse_fallbacks_witness :
    parse0 rawStep0.viz.data = none ∧
    (processStepApp parse0 "ARRAY" rawStep0).data = .jstr rawStep0.viz.data ∧
    rawStep0.viz.pointers = none ∧
    (processStepApp parse0 "ARRAY" rawStep0).pointers = .jobj [] :=
  ⟨rfl,
   simulate_code_parse_fallbacks.2.2.1 parse0 "ARRAY" rawStep0 rfl,
   rfl,
   simulate_code_parse_fallbacks.2.2.2.2.1 parse0 "ARRAY" rawStep0 rfl⟩

/-- One scan step preserves the scan invariant. -/
theorem scanInv_step {g : ℕ} {gp : ℚ × ℚ} {pref : List (ℕ × ℚ × ℚ)}
    {acc : Option (ℕ × ℚ)} (e : ℕ × ℚ × ℚ) (h : ScanInv g gp pref acc) :
    ScanInv g gp (pref ++ [e]) (swapStep g gp acc e) := by
  by_cases he : e.1 = g
  · have hstep : swapStep g gp acc e = acc := by simp [swapStep, he]
    rw [hstep]
    cases acc with
    | none =>
      intro e' he' hne
      rcases List.mem_append.mp he' with h1 | h2
      · exact h e' h1 hne
      · rw [List.mem_singleton.mp h2] at hne; exact absurd he hne
    | some tm =>
      obtain ⟨t, m⟩ := tm
      obtain ⟨hm, ⟨e0, he0, ht0⟩, hmin⟩ := h
      refine ⟨hm, ⟨e0, List.mem_append_left _ he0, ht0⟩, ?_⟩
      intro e' he' hne hlt
      rcases List.mem_append.mp he' with h1 | h2
      · exact hmin e' h1 hne hlt
      · rw [List.mem_singleton.mp h2] at hne; exact absurd he hne
  · cases acc with
    | none =>
      by_cases hd : dist2 gp e.2 < swapThreshold2
      · have hstep : swapStep g gp none e = some (e.1, dist2 gp e.2) := by
          simp [swapStep, he, hd]
        rw [hstep]
        refine ⟨hd, ⟨e, List.mem_append_right _ (List.mem_singleton_self e),
          rfl, he, rfl⟩, ?_⟩
        intro e' he' hne hlt
        rcases List.mem_append.mp he' with h1 | h2
        · exact absurd hlt (h e' h1 hne)
        · rw [List.mem_singleton.mp h2]
      · have hstep : swapStep g gp none e = none := by simp [swapStep, he, hd]
        rw [hstep]
        intro e' he' hne
        rcases List.mem_append.mp he' with h1 | h2
        · exact h e' h1 hne
        · rw [List.mem_singleton.mp h2]; exact hd
    | some tm =>
      obtain ⟨t, m⟩ := tm
      obtain ⟨hm, ⟨e0, he0, ht0, hne0, hd0⟩, hmin⟩ := h
      by_cases hd : dist2 gp e.2 < swapThreshold2 ∧ dist2 gp e.2 < m
      · have hstep : swapStep g gp (some (t, m)) e
            = some (e.1, dist2 gp e.2) := by
          simp [swapStep, he, hd]
        rw [hstep]
        refine ⟨hd.1, ⟨e, List.mem_append_right _ (List.mem_singleton_self e),
          rfl, he, rfl⟩, ?_⟩
        intro e' he' hne hlt
        rcases List.mem_append.mp he' with h1 | h2
        · exact le_trans (le_of_lt hd.2) (hmin e' h1 hne hlt)
        · rw [List.mem_singleton.mp h2]
      · have hstep : swapStep g gp (some (t, m)) e = some (t, m) := by
          simp only [swapStep, beq_iff_eq, if_neg he]
          rw [if_neg hd]
        rw [hstep]
        refine ⟨hm, ⟨e0, List.mem_append_left _ he0, ht0, hne0, hd0⟩, ?_⟩
        intro e' he' hne hlt
        rcases List.mem_append.mp he' with h1 | h2
        · exact hmin e' h1 hne hlt
        · rw [List.mem_singleton.mp h2]
          rw [List.mem_singleton.mp h2] at hlt
          rcases not_and_or.mp hd with hbad | hge
          · exact absurd hlt hbad
          · exact le_of_not_lt hge

/-- The scan invariant holds along the whole fold. -/
theorem swapScan_inv (g : ℕ) (gp : ℚ × ℚ) :
    ∀ (ps pref : List (ℕ × ℚ × ℚ)) (acc : Option (ℕ × ℚ)),
      ScanInv g gp pref acc →
      ScanInv g gp (pref ++ ps) (ps.foldl (swapStep g gp) acc) := by
  intro ps
  induction ps with
  | nil => intro pref acc h; simpa using h
  | cons e rest ih =>
    intro pref acc h
    have h2 := ih (pref ++ [e]) _ (scanInv_step e h)
    simpa [List.append_assoc] using h2

/-- The scan invariant at the end of the whole scan. -/
theorem swapScan_spec (g : ℕ) (gp : ℚ × ℚ) (ps : List (ℕ × ℚ × ℚ)) :
    ScanInv g gp ps (swapScan g gp ps) := by
  have h0 : ScanInv g gp [] none := by
    intro e he
    exact absurd he (List.not_mem_nil e)
  simpa using swapScan_inv g gp ps [] none h0

/-- A stored entry is what the position lookup returns, given distinct keys. -/
theorem lookupPos_of_mem :
    ∀ {ps : List (ℕ × ℚ × ℚ)}, (ps.map Prod.fst).Nodup →
      ∀ {e : ℕ × ℚ × ℚ}, e ∈ ps → lookupPos ps e.1 = some e.2 := by
  intro ps
  induction ps with
  | nil => intro _ e he; exact absurd he (List.not_mem_nil e)
  | cons a rest ih =>
    intro hnd e he
    rw [List.map_cons, List.nodup_cons] at hnd
    rcases List.mem_cons.mp he with rfl | hmem
    · simp [lookupPos]
    · by_cases hae : a.1 = e.1
      · exfalso
        have : e.1 ∈ rest.map Prod.fst := List.mem_map_of_mem Prod.fst hmem
        exact hnd.1 (hae ▸ this)
      · simpa [lookupPos, hae] using ih hnd.2 hmem

/-- Updating one key leaves every other key's lookup unchanged. -/
theorem lookupPos_setPos_other :
    ∀ {ps : List (ℕ × ℚ × ℚ)} {id j : ℕ} (v : ℚ × ℚ), j ≠ id →
      lookupPos (setPos ps id v) j = lookupPos ps j := by
  intro ps
  induction ps with
  | nil => intro id j v h; rfl
  | cons a rest ih =>
    intro id j v h
    have hij : ¬id = j := fun hh => h hh.symm
    by_cases hai : a.1 = id
    · have haj : ¬a.1 = j := fun hh => h (hh ▸ hai)
      simp [setPos, lookupPos, hai, haj, hij, ih v h]
    · by_cases haj : a.1 = j
      · simp [setPos, lookupPos, hai, haj, h]
      · simp [setPos, lookupPos, hai, haj, ih v h]

/-- Updating an existing key makes its lookup return the new value. -/
theorem lookupPos_setPos_same :
    ∀ {ps : List (ℕ × ℚ × ℚ)} {id : ℕ} (v : ℚ × ℚ),
      (lookupPos ps id).isSome → lookupPos (setPos ps id v) id = some v := by
  intro ps
  induction ps with
  | nil => intro id v h; simp [lookupPos] at h
  | cons a rest ih =>
    intro id v h
    by_cases hai : a.1 = id
    · simp [setPos, lookupPos, hai]
    · have h' : (lookupPos rest id).isSome := by
        simpa [lookupPos, hai] using h
      simp [setPos, lookupPos, hai, ih v h']

/-- C4: on a pinch release with a live grab (grabbed id `g`, currently
dragged to `gp`, pre-grab position `p0` recorded): the grab state (grabbed
id and pre-grab position) is always cleared; if no other element is within
the proximity threshold of the dragged position, the grabbed element's
position reverts exactly to `p0` and every other entry is unchanged; if some
other element is within the threshold, a nearest one `t` is selected, the
grabbed element ends at `t`'s current position, `t` ends at `p0`, and every
other entry is unchanged. -/
theorem release_swap_or_revert (st : OverlayState) (g : ℕ) (gp p0 : ℚ × ℚ)
    (hg : st.grabbedId = some g) (hs : st.grabbedStartPos = some p0)
    (hl : lookupPos st.positions g = some gp)
    (hnd : (st.positions.map Prod.fst).Nodup) :
    ((releaseGrab st).grabbedId = none ∧
      (releaseGrab st).grabbedStartPos = none) ∧
    ((∀ e ∈ st.positions, e.1 ≠ g → ¬dist2 gp e.2 < swapThreshold2) →
      (releaseGrab st).positions = setPos st.positions g p0 ∧
      lookupPos (releaseGrab st).positions g = some p0 ∧
      ∀ j : ℕ, j ≠ g →
        lookupPos (releaseGrab st).positions j = lookupPos st.positions j) ∧
    ((∃ e ∈ st.positions, e.1 ≠ g ∧ dist2 gp e.2 < swapThreshold2) →
      ∃ t : ℕ, ∃ tp : ℚ × ℚ,
        findSwapTarget g gp st.positions = some t ∧
        lookupPos st.positions t = some tp ∧ t ≠ g ∧
        dist2 gp tp < swapThreshold2 ∧
        (∀ e ∈ st.positions, e.1 ≠ g → dist2 gp e.2 < swapThreshold2 →
          dist2 gp tp ≤ dist2 gp e.2) ∧
        (releaseGrab st).positions = setPos (setPos st.positions g tp) t p0 ∧
        lookupPos (releaseGrab st).positions g = some tp ∧
        lookupPos (releaseGrab st).positions t = some p0 ∧
        ∀ j : ℕ, j ≠ g → j ≠ t →
          lookupPos (releaseGrab st).positions j = lookupPos st.positions j) := by
  have inv := swapScan_spec g gp st.positions
  cases hsc : swapScan g gp st.positions with
  | none =>
    rw [hsc] at inv
    have hft : findSwapTarget g gp st.positions = none := by
      simp [findSwapTarget, hsc]
    have hrel : releaseGrab st
        = ⟨setPos st.positions g p0, none, none⟩ := by
      simp [releaseGrab, hg, hl, hs, hft]
    refine ⟨by simp [hrel], ?_, ?_⟩
    · intro _
      refine ⟨by simp [hrel], ?_, ?_⟩
      · rw [hrel]
        exact lookupPos_setPos_same p0 (by rw [hl]; rfl)
      · intro j hj
        rw [hrel]
        exact lookupPos_setPos_other p0 hj
    · rintro ⟨e, he, hne, hd⟩
      exact absurd hd (inv e he hne)
  | some tm =>
    obtain ⟨t, m⟩ := tm
    rw [hsc] at inv
    obtain ⟨hm, ⟨e0, he0, ht0, hne0, hd0⟩, hmin⟩ := inv
    have hft : findSwapTarget g gp st.positions = some t := by
      simp [findSwapTarget, hsc]
    have hlt : lookupPos st.positions t = some e0.2 := by
      rw [← ht0]
      exact lookupPos_of_mem hnd he0
    have hrel : releaseGrab st
        = ⟨setPos (setPos st.positions g e0.2) t p0, none, none⟩ := by
      simp [releaseGrab, hg, hl, hs, hft, hlt]
    refine ⟨by simp [hrel], ?_, ?_⟩
    · intro hno
      exact absurd (by rw [hd0]; exact hm)
        (hno e0 he0 (by rw [ht0]; exact hne0))
    · intro _
      refine ⟨t, e0.2, hft, hlt, hne0, by rw [hd0]; exact hm, ?_,
        by simp [hrel], ?_, ?_, ?_⟩
      · intro e he hne hd
        rw [hd0]
        exact hmin e he hne hd
      · rw [hrel]
        have h1 : lookupPos (setPos st.positions g e0.2) g = some e0.2 :=
          lookupPos_setPos_same e0.2 (by rw [hl]; rfl)
        calc lookupPos (setPos (setPos st.positions g e0.2) t p0) g
            = lookupPos (setPos st.positions g e0.2) g :=
              lookupPos_setPos_other p0 (fun hh => hne0 hh.symm)
          _ = some e0.2 := h1
      · rw [hrel]
        apply lookupPos_setPos_same p0
        rw [lookupPos_setPos_other e0.2 hne0, hlt]
        rfl
      · intro j hjg hjt
        rw [hrel]
        rw [lookupPos_setPos_other p0 hjt, lookupPos_setPos_other e0.2 hjg]

/-- Witness: releasing element 0 (dragged next to element 1) swaps the two
elements' stored positions; releasing far from everything reverts. -/
theorem release_swap_or_revert_witness :
    ((releaseGrab overlaySwapSt).grabbedId = none ∧
      lookupPos (releaseGrab overlaySwapSt).positions 0 = some (100, 0) ∧
      lookupPos (releaseGrab overlaySwapSt).positions 1 = some (0, 0)) ∧
    ((releaseGrab overlayRevertSt).grabbedId = none ∧
      (releaseGrab overlayRevertSt).positions
        = setPos overlayRevertSt.positions 0 (0, 0)) := by
  have hswap := release_swap_or_revert overlaySwapSt 0 (100, 10) (0, 0)
    rfl rfl rfl (by simp [overlaySwapSt])
  have hrev := release_swap_or_revert overlayRevertSt 0 (1000, 0) (0, 0)
    rfl rfl rfl (by simp [overlayRevertSt])
  have hex : ∃ e ∈ overlaySwapSt.positions, e.1 ≠ 0 ∧
      dist2 (100, 10) e.2 < swapThreshold2 := by
    refine ⟨(1, (100, 0)), by simp [overlaySwapSt], by norm_num, ?_⟩
    norm_num [dist2, swapThreshold2]
  obtain ⟨t, tp, hft, hltp, htg, hthr, hmin, hpos, hlg, hlder, hother⟩ :=
    hswap.2.2 hex
  have hft1 : findSwapTarget 0 (100, 10) overlaySwapSt.positions
      = some 1 := by
    norm_num [findSwapTarget, swapScan, swapStep, dist2, swapThreshold2,
      overlaySwapSt]
  rw [hft] at hft1
  have ht : t = 1 := Option.some.inj hft1
  subst ht
  have htp : some tp = some ((100 : ℚ), (0 : ℚ)) := by
    rw [← hltp]
    simp [overlaySwapSt, lookupPos]
  have htp' : tp = ((100 : ℚ), (0 : ℚ)) := Option.some.inj htp
  subst htp'
  refine ⟨⟨hswap.1.1, hlg, hlder⟩, hrev.1.1, ?_⟩
  have hnone : ∀ e ∈ overlayRevertSt.positions, e.1 ≠ 0 →
      ¬dist2 (1000, 0) e.2 < swapThreshold2 := by
    intro e he hne
    simp only [overlayRevertSt, List.mem_cons, List.not_mem_nil,
      or_false] at he
    rcases he with rfl | rfl
    · simp at hne
    · norm_num [dist2, swapThreshold2]
  exact (hrev.2.1 hnone).1

end HireLens
